import Mathlib

/-!
Verification of measure-input-latency (src/main.cpp) against its
natural-language specification.

Shallow embedding: the measurement core (delay generator, the two
detection backends, the measurement loop, argument validation and the
evdev device enumerator) is translated into pure Lean functions.
External inputs (GPIO pin reads, evdev read(2) results, clock queries,
open(2) results) are passed in as explicit scripts/streams; loops that
consume such inputs terminate structurally on the script, with running
off the end of the script representing "still polling".
Machine integers are modelled as Int/Nat with explicit reductions
mod 2^32 where the C++ code computes in 32-bit unsigned arithmetic.
-/

namespace MeasureInputLatency

/-! ### Constants from wiringPi and linux/input.h -/

/-- wiringPi digital level LOW (value 0). -/
def LOW : Int := 0

/-- wiringPi digital level HIGH (value 1). -/
def HIGH : Int := 1

/-- linux/input-event-codes.h: EV_KEY event type (value 1). -/
def EV_KEY : Nat := 1

/-- src/main.cpp line 29: `const int g_pin_input = 0;`. -/
def g_pin_input : Nat := 0

/-- src/main.cpp line 30: `const int g_pin_output = 2;`. -/
def g_pin_output : Nat := 2

/-- C++ implicit bool-to-int conversion (true becomes 1, false 0),
as applied when a `bool` meets an `int` in a comparison. -/
def boolToInt (b : Bool) : Int := if b then 1 else 0

/-! ### Configuration (struct program_config, lines 32-41) -/

/-- The fields of `struct program_config`. `iterations`, `delay_min`, `delay_max` are
C++ ints; `usb` and `key` are `std::optional<unsigned int>`.
`iterations` is kept as Nat because the code only ever uses it as a
loop bound and vector size after `get_positive` validation. -/
structure program_config where
  iterations : Nat
  delay_min : Int
  delay_max : Int
  pin : Bool
  usb : Option Nat
  key : Option Nat
  events : Bool
  summary : Bool

/-! ### Generic first-match search

Both backends' polling loops return at the first script entry
satisfying their break condition.  `firstIdx p l` is the index of the
first element of `l` satisfying `p`, or `none` when no element does
(the loop keeps polling past the script's end). -/

def firstIdx {α : Type} (p : α → Bool) : List α → Option Nat
  | [] => none
  | a :: l => if p a then some 0 else (firstIdx p l).map (· + 1)

/-! ### GPIO backend (measure_pin, lines 203-211)

The loop body is
  `if (digitalRead(g_pin_input) == pressed ? LOW : HIGH) break;`
which C++ operator precedence parses as
  `if ((digitalRead(g_pin_input) == pressed) ? LOW : HIGH) break;`
with `pressed` implicitly converted to int.  The script `reads` is the
sequence of `digitalRead(g_pin_input)` results; the function returns
the index of the read at which the loop breaks. -/

def await_pin (pressed : Bool) : List Int → Option Nat
  | [] => none
  | r :: rest =>
    if (if r = boolToInt pressed then LOW else HIGH) ≠ 0 then some 0
    else (await_pin pressed rest).map (· + 1)

/-- The pin level that `await_state(asserted)` waits for according to
the spec's active-low convention: asserted means logic LOW. -/
def expectedLevel (asserted : Bool) : Int := if asserted then LOW else HIGH

/-! ### Evdev backend (measure_usb, lines 172-201)

`input_event` fields used by the code: `type` and `code` are __u16,
`value` is __s32. -/

structure input_event where
  type : Nat
  code : Nat
  value : Int

/-- C++ `operator==(__u16, const std::optional<unsigned int>&)`:
false when the optional is disengaged, value comparison otherwise
(line 190: `keyboard_event.code == config.key`). -/
def optCodeEq (c : Nat) (key : Option Nat) : Bool :=
  match key with
  | some k => c = k
  | none => false

/-- The break condition of the evdev polling loop, lines 188-192.
C++ precedence parses
  `type == EV_KEY && code == config.key && value == pressed ? 1 : 0`
as `((type == EV_KEY && code == config.key && value == pressed) ? 1 : 0)`,
with `pressed` converted to int in `value == pressed`. -/
def usbMatch (key : Option Nat) (pressed : Bool) (ev : input_event) : Bool :=
  decide (ev.type = EV_KEY) && optCodeEq ev.code key && decide (ev.value = boolToInt pressed)

/-- The evdev backend's await loop (lines 178-196).  The script is the
sequence of `read(fd, &keyboard_event, sizeof(input_event))` outcomes:
each entry carries the return value of read(2) and the contents of the
`keyboard_event` buffer after the call.  A return value of exactly -1
retries immediately (`if (ret == -1) continue;`); any other return
value falls through to the match test, whose `? 1 : 0` int result
breaks the loop iff nonzero.  Returns the index of the read at which
the loop breaks. -/
def await_usb (key : Option Nat) (pressed : Bool) : List (Int × input_event) → Option Nat
  | [] => none
  | e :: rest =>
    if e.1 = -1 then (await_usb key pressed rest).map (· + 1)
    else if (if usbMatch key pressed e.2 then (1 : Int) else 0) ≠ 0 then some 0
    else (await_usb key pressed rest).map (· + 1)

/-! ### Delay generator (get_delays, lines 120-130)

Line 123 constructs `std::mt19937 rand_gen(30378)` — the standard
32-bit Mersenne Twister (n=624, m=397, r=31, a=0x9908B0DF, u=11, s=7,
b=0x9D2C5680, t=15, c=0xEFC60000, L=18, f=1812433253) seeded with the
fixed constant 30378.  Line 124 constructs
`std::uniform_int_distribution<int> int_dist{delay_min, delay_max}`,
modelled below by the libstdc++ algorithm: with the engine range
2^32-1 strictly larger than the output range, each draw
rejection-samples engine words until one falls below
past = uerange * ((2^32-1) / uerange) and divides the accepted word by
the scaling factor. -/

/-- Reduction into 32-bit unsigned arithmetic. -/
def u32 (x : Nat) : Nat := x % 4294967296

/-- One step of mt19937 seeding: state[i] = f * (state[i-1] xor
(state[i-1] >> 30)) + i, mod 2^32. -/
def mtNextSeed (prev : Nat) (i : Nat) : Nat :=
  u32 (1812433253 * (Nat.xor prev (prev >>> 30)) + i)

def mtSeedFrom (prev : Nat) (i : Nat) : Nat → List Nat
  | 0 => []
  | c + 1 => mtNextSeed prev i :: mtSeedFrom (mtNextSeed prev i) (i + 1) c

/-- The seeded mt19937 state mt[0..623]. -/
def mtInitState (seed : Nat) : List Nat := u32 seed :: mtSeedFrom (u32 seed) 1 623

/-- One in-place step of the mt19937 twist at position i:
y is the top bit of mt[i] together with the low 31 bits of
mt[(i+1) mod 624], and mt[i] becomes mt[(i+397) mod 624] xor (y >> 1)
xor (a if y is odd).  Positions below i already hold this block's new
values, exactly as in the sequential reference algorithm. -/
def mtTwistOne (st : List Nat) (i : Nat) : List Nat :=
  let y := st.getD i 0 / 2147483648 * 2147483648 + (st.getD ((i + 1) % 624) 0) % 2147483648
  let v := u32 (Nat.xor (Nat.xor (st.getD ((i + 397) % 624) 0) (y >>> 1))
    (if y % 2 = 1 then 2567483615 else 0))
  st.set i v

/-- A full twist pass over the 624-word state. -/
def mtTwist (st : List Nat) : List Nat := (List.range 624).foldl mtTwistOne st

/-- The mt19937 output tempering. -/
def mtTemper (x : Nat) : Nat :=
  let y1 := Nat.xor x (x >>> 11)
  let y2 := Nat.xor y1 (u32 (y1 <<< 7) &&& 2636928640)
  let y3 := Nat.xor y2 (u32 (y2 <<< 15) &&& 4022730752)
  Nat.xor y3 (y3 >>> 18)

def mtStateAfter (seed : Nat) : Nat → List Nat
  | 0 => mtInitState seed
  | k + 1 => mtTwist (mtStateAfter seed k)

/-- The first n outputs of mt19937(seed): the engine twists one
624-word block at a time and returns its words tempered. -/
def mtOutputs (seed : Nat) (n : Nat) : List Nat :=
  List.take n ((List.range (n / 624 + 1)).flatMap
    (fun k => (mtStateAfter seed (k + 1)).map mtTemper))

/-- One draw of std::uniform_int_distribution<int>{mn, mx} as
implemented by libstdc++ for an engine whose range 2^32-1 exceeds the
output range: urange = uctype(mx) - uctype(mn) (equal to mx - mn for
the validated non-negative bounds this program passes),
uerange = urange + 1, scaling = (2^32-1) / uerange,
past = uerange * scaling; engine words at or above past are rejected,
an accepted word is divided by scaling and offset by mn.  Words are
consumed from the front of `stream`; none means the stream was
exhausted while the loop was still rejecting. -/
def uniformDraw (mn mx : Int) : List Nat → Option (Int × List Nat)
  | [] => none
  | w :: rest =>
    let uerange : Nat := (mx - mn).toNat + 1
    let scaling : Nat := 4294967295 / uerange
    let past : Nat := uerange * scaling
    if u32 w ≥ past then uniformDraw mn mx rest
    else some (mn + ((u32 w / scaling : Nat) : Int), rest)

/-- The std::generate call of get_delays (line 127): `count` draws in
order, each consuming engine words from where the previous one
stopped. -/
def get_delaysOn (mn mx : Int) : Nat → List Nat → Option (List Int)
  | 0, _ => some []
  | c + 1, stream =>
    match uniformDraw mn mx stream with
    | none => none
    | some (v, rest) =>
      match get_delaysOn mn mx c rest with
      | none => none
      | some l => some (v :: l)

/-- get_delays (lines 120-130): a fresh engine seeded with the fixed
constant 30378, a distribution over [delay_min, delay_max], and
config.iterations draws.  `fuel` bounds how many engine words the
rejection loops may consume (the C++ loop is unbounded; any fuel large
enough for all draws to accept yields the run's actual output). -/
def get_delays (cfg : program_config) (fuel : Nat) : Option (List Int) :=
  get_delaysOn cfg.delay_min cfg.delay_max cfg.iterations (mtOutputs 30378 fuel)

/-! ### Measurement loop (measure_loop, lines 143-170)

The loop's interactions with the outside world are recorded as an
event trace.  `delays` abstracts the vector returned by get_delays
(entry i is delays[i] in microseconds) and `clock` the successive
values returned by std::chrono::high_resolution_clock::now(),
numbered in call order and measured in integer nanoseconds (on Linux
the clock's duration type is already nanoseconds, so the
duration_cast<nanoseconds> on line 163 is the identity on the
difference). -/

inductive LoopEv where
  | printSummary
  | initPins
  | sleepFor (us : Int)
  | clockRead (k : Nat)
  | writePin (pin : Nat) (level : Int)
  | awaitState (asserted : Bool)
  deriving DecidableEq

/-- One iteration of the for-loop (lines 155-167) for trial i with
delay d: sleep, start timestamp (clock call 2*i), drive output HIGH,
await_state(true), end timestamp (clock call 2*i+1, taken while
computing times[i] on line 163), drive output LOW,
await_state(false). -/
def trial_events (i : Nat) (d : Int) : List LoopEv :=
  [LoopEv.sleepFor d, LoopEv.clockRead (2 * i), LoopEv.writePin g_pin_output HIGH,
   LoopEv.awaitState true, LoopEv.clockRead (2 * i + 1), LoopEv.writePin g_pin_output LOW,
   LoopEv.awaitState false]

/-- times[i] as computed on line 163: clock value at call 2*i+1 minus
clock value at call 2*i. -/
def trial_sample (clock : Nat → Int) (i : Nat) : Int :=
  clock (2 * i + 1) - clock (2 * i)

/-- The for-loop of measure_loop unrolled in execution order: after n
iterations, the event trace and the contents written into the times
vector are those of trials 0..n-1 in order. -/
def measure_trials (delays : Nat → Int) (clock : Nat → Int) : Nat → List LoopEv × List Int
  | 0 => ([], [])
  | n + 1 =>
    ((measure_trials delays clock n).1 ++ trial_events n (delays n),
     (measure_trials delays clock n).2 ++ [trial_sample clock n])

/-- measure_loop (lines 143-170): optional summary print (lines
145-147), init_pins (line 149, which also drives the output pin LOW),
then the trial loop; returns the times vector. -/
def measure_loop (cfg : program_config) (delays : Nat → Int) (clock : Nat → Int) :
    List LoopEv × List Int :=
  ((if cfg.summary then [LoopEv.printSummary] else []) ++ [LoopEv.initPins] ++
     (measure_trials delays clock cfg.iterations).1,
   (measure_trials delays clock cfg.iterations).2)

/-! ### Argument validation (parse_args, lines 337-360) and main -/

inductive ValidationError where
  | delayOrder
  | noCommand
  | conflictingCommands
  | missingKey
  deriving DecidableEq

/-- num_cmds as counted on lines 342-345. -/
def num_cmds (cfg : program_config) : Nat :=
  (if cfg.pin then 1 else 0) + (if cfg.usb.isSome then 1 else 0) +
    (if cfg.events then 1 else 0)

/-- The validation chain at the end of parse_args (lines 337-360), in
source order.  A failing check prints its message to cerr and calls
help(true), which prints the help text to cerr and exits the process
with status 1 (lines 239-241). -/
def validate (cfg : program_config) : Option ValidationError :=
  if cfg.delay_max < cfg.delay_min then some ValidationError.delayOrder
  else if num_cmds cfg = 0 then some ValidationError.noCommand
  else if num_cmds cfg > 1 then some ValidationError.conflictingCommands
  else if cfg.usb.isSome && cfg.key.isNone then some ValidationError.missingKey
  else none

/-- Coarse process-level actions of main (lines 363-375).
`errReport` covers the cerr message plus the help text printed by
help(true); `openDevice` is the Event construction inside measure_usb
(line 174); `hardwareMeasurement` covers init_pins and the trial
loop. -/
inductive ProcAction where
  | errReport
  | listDevices
  | openDevice (id : Nat)
  | hardwareMeasurement
  deriving DecidableEq

/-- main (lines 363-375): parse_args either exits with status 1 via
help(true) after reporting to cerr — before anything else runs — or
hands the validated config to exactly one of print_event_paths,
measure_pin, measure_usb.  Returns the action trace and the process
exit code. -/
def main_run (cfg : program_config) : List ProcAction × Nat :=
  match validate cfg with
  | some _ => ([ProcAction.errReport], 1)
  | none =>
    if cfg.events then ([ProcAction.listDevices], 0)
    else if cfg.pin then ([ProcAction.hardwareMeasurement], 0)
    else
      match cfg.usb with
      | some id => ([ProcAction.openDevice id, ProcAction.hardwareMeasurement], 0)
      | none => ([], 0)

/-! ### Device handle ownership (class Event, lines 68-108, and
print_event_paths, lines 132-141) -/

inductive FdAction where
  | openFail (id : Nat)
  | openOk (id : Nat) (fd : Nat)
  | queryName (fd : Nat)
  | closeFd (fd : Nat)
  deriving DecidableEq

/-- The lifecycle of one `Event` object constructed with event id
`id`, where open(2) returned `r` (lines 73-88): a negative result
throws OpenException out of the constructor — the destructor does not
run, and since open failed there is no descriptor to release;
otherwise the object holds descriptor `r` around `body` and its
destructor (`if (_fd >= 0) close(_fd);`) closes it exactly once on
scope exit. -/
def event_scope (id : Nat) (r : Int) (body : List FdAction) : List FdAction :=
  if r < 0 then [FdAction.openFail id]
  else [FdAction.openOk id r.toNat] ++ body ++ [FdAction.closeFd r.toNat]

/-- print_event_paths (lines 132-141): for each event id in [0, 256),
construct an Event in a try block; on success query its name (an ioctl
on the descriptor) and print it, on OpenException continue with the
next id.  `openRes id` is what open(2) returns for
/dev/input/event<id>. -/
def print_event_paths_trace (openRes : Nat → Int) : List FdAction :=
  (List.range 256).flatMap (fun id =>
    event_scope id (openRes id) [FdAction.queryName (openRes id).toNat])

/-- Resource accounting: replay a trace over the list of currently
open descriptors.  Releasing a descriptor that is not open (a double
release) fails with none; otherwise the still-open descriptors
remain. -/
def runFds : List FdAction → List Nat → Option (List Nat)
  | [], live => some live
  | FdAction.openFail _ :: rest, live => runFds rest live
  | FdAction.openOk _ fd :: rest, live => runFds rest (fd :: live)
  | FdAction.queryName _ :: rest, live => runFds rest live
  | FdAction.closeFd fd :: rest, live =>
    if fd ∈ live then runFds rest (live.erase fd) else none

end MeasureInputLatency

namespace MeasureInputLatency

/-! ### Helper lemmas -/

theorem firstIdx_cons_pos {α : Type} (p : α → Bool) (a : α) (l : List α)
    (h : p a = true) : firstIdx p (a :: l) = some 0 := by
  simp [firstIdx, h]

theorem firstIdx_cons_neg {α : Type} (p : α → Bool) (a : α) (l : List α)
    (h : p a = false) : firstIdx p (a :: l) = (firstIdx p l).map (· + 1) := by
  simp [firstIdx, h]

/-- The function `firstIdx` really is the first matching index: it answers `some i`
exactly when element `i` matches and no earlier element does. -/
theorem firstIdx_eq_some_iff {α : Type} (p : α → Bool) (l : List α) (i : Nat) :
    firstIdx p l = some i ↔
      ∃ h : i < l.length, p (l.get ⟨i, h⟩) = true ∧
        ∀ j (hj : j < i), p (l.get ⟨j, Nat.lt_trans hj h⟩) = false := by
  induction l generalizing i with
  | nil => simp [firstIdx]
  | cons a l ih =>
    by_cases ha : p a = true
    · rw [firstIdx_cons_pos p a l ha]
      cases i with
      | zero => simp [List.get, ha]
      | succ i =>
        simp only [Option.some.injEq]
        constructor
        · intro h
          exact absurd h (by omega)
        · rintro ⟨h, -, hall⟩
          have h0 := hall 0 (Nat.succ_pos i)
          simp only [List.get] at h0
          rw [ha] at h0
          cases h0
    · rw [firstIdx_cons_neg p a l (by simpa using ha)]
      rw [Option.map_eq_some']
      cases i with
      | zero =>
        constructor
        · rintro ⟨j, -, hj⟩
          exact absurd hj (by omega)
        · rintro ⟨h, hp, -⟩
          simp only [List.get] at hp
          exact absurd hp ha
      | succ i =>
        constructor
        · rintro ⟨j, hj, hji⟩
          have hji2 : j = i := by omega
          subst hji2
          obtain ⟨h, hp, hall⟩ := (ih j).mp hj
          refine ⟨Nat.succ_lt_succ h, hp, ?_⟩
          intro k hk
          cases k with
          | zero => simpa using ha
          | succ k => exact hall k (Nat.lt_of_succ_lt_succ hk)
        · rintro ⟨h, hp, hall⟩
          refine ⟨i, (ih i).mpr ⟨Nat.lt_of_succ_lt_succ h, hp, ?_⟩, rfl⟩
          intro k hk
          exact hall (k + 1) (Nat.succ_lt_succ hk)

/-- An accepted draw lies in [mn, mx]: the accepted word is below
past = uerange * scaling, so dividing by scaling lands in
[0, uerange - 1] = [0, mx - mn]. -/
theorem uniformDraw_mem (mn mx : Int) (hle : mn ≤ mx) (hr : mx - mn < 4294967295)
    (stream : List Nat) (v : Int) (rest : List Nat)
    (h : uniformDraw mn mx stream = some (v, rest)) : mn ≤ v ∧ v ≤ mx := by
  induction stream generalizing rest with
  | nil => simp [uniformDraw] at h
  | cons w s ih =>
    simp only [uniformDraw] at h
    split at h
    · exact ih rest h
    · rename_i hlt
      rw [Option.some.injEq, Prod.mk.injEq] at h
      obtain ⟨hv, -⟩ := h
      subst hv
      have hur : (mx - mn).toNat < 4294967295 := by omega
      have hscal : 0 < 4294967295 / ((mx - mn).toNat + 1) :=
        Nat.div_pos (by omega) (by omega)
      have hdiv : u32 w / (4294967295 / ((mx - mn).toNat + 1)) < (mx - mn).toNat + 1 := by
        rw [Nat.div_lt_iff_lt_mul hscal]
        omega
      generalize hq : u32 w / (4294967295 / ((mx - mn).toNat + 1)) = q at hdiv ⊢
      omega

theorem get_delaysOn_mem (mn mx : Int) (hle : mn ≤ mx) (hr : mx - mn < 4294967295)
    (count : Nat) (stream : List Nat) (l : List Int)
    (hl : get_delaysOn mn mx count stream = some l) :
    ∀ x ∈ l, mn ≤ x ∧ x ≤ mx := by
  induction count generalizing stream l with
  | zero =>
    obtain rfl := Option.some.inj hl
    simp
  | succ c ih =>
    rw [get_delaysOn] at hl
    split at hl
    · cases hl
    · rename_i v rest hd
      split at hl
      · cases hl
      · rename_i ltail hrec
        obtain rfl := Option.some.inj hl
        intro x hx
        rcases List.mem_cons.mp hx with rfl | hx2
        · exact uniformDraw_mem mn mx hle hr stream x rest hd
        · exact ih rest ltail hrec x hx2

theorem runFds_append (a b : List FdAction) (live : List Nat) :
    runFds (a ++ b) live =
      match runFds a live with
      | some l => runFds b l
      | none => none := by
  induction a generalizing live with
  | nil => rfl
  | cons x a ih =>
    cases x with
    | openFail id => simpa [runFds] using ih live
    | openOk id fd => simpa [runFds] using ih (fd :: live)
    | queryName fd => simpa [runFds] using ih live
    | closeFd fd =>
      simp only [List.cons_append, runFds]
      split
      · exact ih _
      · rfl

/-- Each loop iteration of print_event_paths leaves the set of open
descriptors unchanged: a failed open touches nothing and a successful
one is closed before the next iteration. -/
theorem runFds_event_scope (id : Nat) (r : Int) (fd : Nat) (live : List Nat) :
    runFds (event_scope id r [FdAction.queryName fd]) live = some live := by
  unfold event_scope
  split
  · rfl
  · simp [runFds, List.erase_cons_head]

theorem runFds_enumeration (openRes : Nat → Int) (ids : List Nat) (live : List Nat) :
    runFds (ids.flatMap (fun id =>
      event_scope id (openRes id) [FdAction.queryName (openRes id).toNat])) live =
      some live := by
  induction ids generalizing live with
  | nil => rfl
  | cons id ids ih =>
    rw [List.flatMap_cons, runFds_append, runFds_event_scope]
    exact ih live

theorem measure_trials_fst (delays clock : Nat → Int) (n : Nat) :
    (measure_trials delays clock n).1 =
      (List.range n).flatMap (fun j => trial_events j (delays j)) := by
  induction n with
  | zero => rfl
  | succ n ih =>
    rw [List.range_succ, List.flatMap_append]
    simp [measure_trials, ih]

theorem measure_trials_snd_length (delays clock : Nat → Int) (n : Nat) :
    (measure_trials delays clock n).2.length = n := by
  induction n with
  | zero => rfl
  | succ n ih => simp [measure_trials, ih]

theorem measure_trials_snd_getElem (delays clock : Nat → Int) (n i : Nat) (hi : i < n) :
    (measure_trials delays clock n).2[i]? = some (trial_sample clock i) := by
  induction n with
  | zero => omega
  | succ n ih =>
    simp only [measure_trials]
    by_cases h : i < n
    · rw [List.getElem?_append_left (by rw [measure_trials_snd_length]; exact h)]
      exact ih h
    · have hin : i = n := by omega
      subst hin
      rw [List.getElem?_append_right (by simp [measure_trials_snd_length])]
      simp [measure_trials_snd_length]

theorem measure_trials_snd_mem (delays clock : Nat → Int) (n : Nat) (x : Int)
    (hx : x ∈ (measure_trials delays clock n).2) :
    ∃ i, i < n ∧ x = trial_sample clock i := by
  induction n with
  | zero => simp [measure_trials] at hx
  | succ n ih =>
    simp only [measure_trials, List.mem_append, List.mem_singleton] at hx
    rcases hx with h | h
    · obtain ⟨i, hi, rfl⟩ := ih h
      exact ⟨i, by omega, rfl⟩
    · exact ⟨n, by omega, h⟩

end MeasureInputLatency

namespace MeasureInputLatency

/-- C1: For every call of the GPIO backend's await_state(asserted) and
every sequence of pin reads (each read yielding a digital level LOW or
HIGH), the call returns exactly at the first read whose level matches
the active-low expectation — LOW when asserted is true, HIGH when
asserted is false — and keeps polling on every read that does not
match. -/
theorem gpio_await_first_active_low_match (pressed : Bool) (reads : List Int)
    (hlevels : ∀ r ∈ reads, r = LOW ∨ r = HIGH) :
    await_pin pressed reads = firstIdx (fun r => r = expectedLevel pressed) reads := by
  induction reads with
  | nil => rfl
  | cons r rest ih =>
    have hr := hlevels r (List.mem_cons_self r rest)
    have hrest : ∀ x ∈ rest, x = LOW ∨ x = HIGH :=
      fun x hx => hlevels x (List.mem_cons_of_mem r hx)
    have ih2 := ih hrest
    rcases hr with h | h <;> cases pressed <;>
      simp [await_pin, firstIdx, h, boolToInt, expectedLevel, LOW, HIGH, ih2]

/-- Witness for C1 at a concrete input: asserted wait over reads
[HIGH, HIGH, LOW, HIGH] breaks at index 2, the first LOW. -/
theorem gpio_await_first_active_low_match_witness :
    await_pin true [1, 1, 0, 1] = some 2 := by
  have h := gpio_await_first_active_low_match true [1, 1, 0, 1] (by decide)
  rw [h]
  decide

/-- C2: For every call of the Evdev backend's await_state(asserted) and
every stream of successfully read input-event records (read(2) never
returning -1), the call returns exactly at the first record whose type
is EV_KEY, whose code equals the configured key code, and whose value
equals 1 when asserted is true and 0 when asserted is false; every
other record (other keys, sync events, key-repeat values) is discarded
and polling continues. -/
theorem evdev_await_first_matching_record (k : Nat) (pressed : Bool)
    (script : List (Int × input_event))
    (hok : ∀ e ∈ script, e.1 ≠ -1) :
    await_usb (some k) pressed script =
      firstIdx (fun e => decide (e.2.type = EV_KEY) && decide (e.2.code = k) &&
        decide (e.2.value = boolToInt pressed)) script := by
  induction script with
  | nil => rfl
  | cons e rest ih =>
    have he := hok e (List.mem_cons_self e rest)
    have hrest : ∀ x ∈ rest, x.1 ≠ -1 :=
      fun x hx => hok x (List.mem_cons_of_mem e hx)
    have ih2 := ih hrest
    by_cases hm : usbMatch (some k) pressed e.2
    · have hp : (decide (e.2.type = EV_KEY) && decide (e.2.code = k) &&
          decide (e.2.value = boolToInt pressed)) = true := by
        simpa [usbMatch, optCodeEq] using hm
      simp [await_usb, firstIdx, he, hm, hp]
    · have hm2 : usbMatch (some k) pressed e.2 = false := by
        simpa using hm
      have hp : (decide (e.2.type = EV_KEY) && decide (e.2.code = k) &&
          decide (e.2.value = boolToInt pressed)) = false := by
        simpa [usbMatch, optCodeEq] using hm2
      simp [await_usb, firstIdx, he, hm, hp, ih2]

/-- Witness for C2 at a concrete input: key code 30, asserted wait; a
sync event, a different key, and a key-repeat (value 2) record are all
skipped and the loop breaks at index 3, the first full match. -/
theorem evdev_await_first_matching_record_witness :
    await_usb (some 30) true
      [(24, ⟨0, 0, 1⟩), (24, ⟨1, 31, 1⟩), (24, ⟨1, 30, 2⟩), (24, ⟨1, 30, 1⟩)] = some 3 := by
  have h := evdev_await_first_matching_record 30 true
    [(24, ⟨0, 0, 1⟩), (24, ⟨1, 31, 1⟩), (24, ⟨1, 30, 2⟩), (24, ⟨1, 30, 1⟩)] (by decide)
  rw [h]
  decide

/-- C10: In the Evdev backend's polling loop, only a read return value
of exactly -1 causes an immediate retry; any other return value —
including 0 bytes read or a partial record smaller than the
input-event size — is treated as a successfully read record and the
event structure is inspected for a match: the loop breaks at the first
script entry whose return value differs from -1 and whose buffer
contents match. -/
theorem evdev_retry_only_on_minus_one (key : Option Nat) (pressed : Bool)
    (script : List (Int × input_event)) :
    await_usb key pressed script =
      firstIdx (fun e => decide (e.1 ≠ -1) && usbMatch key pressed e.2) script := by
  induction script with
  | nil => rfl
  | cons e rest ih =>
    by_cases h1 : e.1 = -1
    · simp [await_usb, firstIdx, h1, ih]
    · by_cases hm : usbMatch key pressed e.2
      · simp [await_usb, firstIdx, h1, hm]
      · simp [await_usb, firstIdx, h1, hm, ih]

/-- C3: For every trial i in [0, N) of the measurement loop, the step
order is: sleep for delay_sequence[i], record a start timestamp (clock
call 2*i), drive the output to the asserted level (HIGH), call
await_state(true), take the end timestamp (clock call 2*i+1), drive
the output back to deasserted (LOW), call await_state(false); and
sample[i] = clock(2*i+1) - clock(2*i), so only the asserted
(rising-edge) transition contributes to sample[i] — the falling-edge
wait happens after both clock reads and is not timed. -/
theorem measurement_loop_trial_order (cfg : program_config) (delays clock : Nat → Int)
    (i : Nat) (hi : i < cfg.iterations) :
    (measure_loop cfg delays clock).1 =
      (if cfg.summary then [LoopEv.printSummary] else []) ++ [LoopEv.initPins] ++
        (List.range cfg.iterations).flatMap (fun j =>
          [LoopEv.sleepFor (delays j), LoopEv.clockRead (2 * j),
           LoopEv.writePin g_pin_output HIGH, LoopEv.awaitState true,
           LoopEv.clockRead (2 * j + 1), LoopEv.writePin g_pin_output LOW,
           LoopEv.awaitState false]) ∧
    (measure_loop cfg delays clock).2[i]? = some (clock (2 * i + 1) - clock (2 * i)) := by
  constructor
  · simp [measure_loop, measure_trials_fst, trial_events]
  · simpa [measure_loop, trial_sample] using
      measure_trials_snd_getElem delays clock cfg.iterations i hi

/-- Witness for C3: with 2 iterations, zero delays and the identity
clock, trial 1 reads the clock at calls 2 and 3 and records sample
3 - 2 = 1. -/
theorem measurement_loop_trial_order_witness :
    (measure_loop ⟨2, 0, 0, true, none, none, false, false⟩ (fun _ => 0)
      (fun k => (k : Int))).2[1]? = some 1 := by
  have h := measurement_loop_trial_order ⟨2, 0, 0, true, none, none, false, false⟩
    (fun _ => 0) (fun k => (k : Int)) 1 (by decide)
  rw [h.2]
  norm_num

/-- C6: For every run of the measurement loop with configured
iteration count N and a monotone clock, the returned sample sequence
has exactly N elements and every element is non-negative. -/
theorem sample_sequence_length_and_nonneg (cfg : program_config) (delays clock : Nat → Int)
    (hmono : ∀ a b : Nat, a ≤ b → clock a ≤ clock b) :
    (measure_loop cfg delays clock).2.length = cfg.iterations ∧
      ∀ x ∈ (measure_loop cfg delays clock).2, 0 ≤ x := by
  constructor
  · simp [measure_loop, measure_trials_snd_length]
  · intro x hx
    obtain ⟨i, -, rfl⟩ := measure_trials_snd_mem delays clock cfg.iterations x
      (by simpa [measure_loop] using hx)
    have h2 := hmono (2 * i) (2 * i + 1) (by omega)
    simp only [trial_sample]
    omega

/-- Witness for C6: 3 iterations with the identity clock yield 3
samples, all non-negative. -/
theorem sample_sequence_length_and_nonneg_witness :
    (measure_loop ⟨3, 100, 100, true, none, none, false, false⟩ (fun _ => 100)
      (fun k => (k : Int))).2.length = 3 ∧
      ∀ x ∈ (measure_loop ⟨3, 100, 100, true, none, none, false, false⟩ (fun _ => 100)
        (fun k => (k : Int))).2, 0 ≤ x :=
  sample_sequence_length_and_nonneg ⟨3, 100, 100, true, none, none, false, false⟩
    (fun _ => 100) (fun k => (k : Int)) (fun a b h => by simpa using h)

/-- C7: For every configuration in which delay_max is strictly less
than delay_min, validation fails before any hardware access: the
process trace consists solely of the error report (message and help
text on cerr) and the process exits with status 1 — no device is
opened, no hardware is touched, no measurement is performed. -/
theorem delay_order_validation_fails (cfg : program_config)
    (h : cfg.delay_max < cfg.delay_min) :
    main_run cfg = ([ProcAction.errReport], 1) := by
  simp [main_run, validate, h]

/-- Witness for C7: delay_min = 50, delay_max = 10 exits with status 1
after only the error report. -/
theorem delay_order_validation_fails_witness :
    main_run ⟨1000, 50, 10, true, none, none, false, false⟩ =
      ([ProcAction.errReport], 1) :=
  delay_order_validation_fails ⟨1000, 50, 10, true, none, none, false, false⟩ (by decide)

/-- C8: For every configuration that selects the usb (Evdev) backend
but leaves the key code unset, validation fails with exit status 1
before any device is opened: whatever check fires first, the trace is
just the error report, with no openDevice action. -/
theorem usb_without_key_validation_fails (cfg : program_config)
    (husb : cfg.usb.isSome = true) (hkey : cfg.key = none) :
    main_run cfg = ([ProcAction.errReport], 1) := by
  have hv : ∃ e, validate cfg = some e := by
    unfold validate
    split
    · exact ⟨_, rfl⟩
    · split
      · exact ⟨_, rfl⟩
      · split
        · exact ⟨_, rfl⟩
        · split
          · exact ⟨_, rfl⟩
          · rename_i h4
            rw [hkey] at h4
            simp [husb] at h4
  obtain ⟨e, he⟩ := hv
  simp [main_run, he]

/-- Witness for C8: usb backend selected with event id 3 and no key
code exits with status 1 without opening the device. -/
theorem usb_without_key_validation_fails_witness :
    main_run ⟨1000, 10000, 20000, false, some 3, none, false, false⟩ =
      ([ProcAction.errReport], 1) :=
  usb_without_key_validation_fails ⟨1000, 10000, 20000, false, some 3, none, false, false⟩
    (by decide) rfl

/-- C9: For every outcome of the 256 open(2) calls made by the device
enumeration, every successfully acquired descriptor is released
exactly once when its Event handle goes out of scope — replaying the
whole trace never double-releases and ends with no descriptor still
open — and a failed construction attempt (open returning a negative
descriptor) produces no descriptor to release at all. -/
theorem device_handle_released_exactly_once (openRes : Nat → Int) :
    runFds (print_event_paths_trace openRes) [] = some [] ∧
      ∀ (id : Nat) (r : Int) (body : List FdAction), r < 0 →
        event_scope id r body = [FdAction.openFail id] := by
  constructor
  · exact runFds_enumeration openRes (List.range 256) []
  · intro id r body hr
    simp [event_scope, hr]

/-- Witness for C9: only index 3 opens (descriptor 7); the replay ends
with every descriptor released, and the failed attempt at index 5
leaves only the openFail record. -/
theorem device_handle_released_exactly_once_witness :
    runFds (print_event_paths_trace (fun id => if id = 3 then 7 else -1)) [] = some [] ∧
      event_scope 5 (-1) [FdAction.queryName 0] = [FdAction.openFail 5] := by
  have h := device_handle_released_exactly_once (fun id => if id = 3 then 7 else -1)
  exact ⟨h.1, h.2 5 (-1) [FdAction.queryName 0] (by decide)⟩

/-- C4: For every fixed (count, min, max), two invocations of the
delay generator produce identical delay sequences — whatever else the
two configurations (and hence the two process runs) differ in —
because each invocation constructs a fresh pseudo-random engine
seeded with the same fixed constant 30378. -/
theorem delay_generator_deterministic (cfg1 cfg2 : program_config) (fuel : Nat)
    (hc : cfg1.iterations = cfg2.iterations)
    (hmn : cfg1.delay_min = cfg2.delay_min)
    (hmx : cfg1.delay_max = cfg2.delay_max) :
    get_delays cfg1 fuel = get_delays cfg2 fuel := by
  unfold get_delays
  rw [hc, hmn, hmx]

/-- Witness for C4: two configurations agreeing on (count, min, max)
but differing in every other field generate the same sequence. -/
theorem delay_generator_deterministic_witness :
    get_delays ⟨2, 10000, 20000, true, none, none, false, false⟩ 4 =
      get_delays ⟨2, 10000, 20000, false, some 3, some 30, false, true⟩ 4 :=
  delay_generator_deterministic ⟨2, 10000, 20000, true, none, none, false, false⟩
    ⟨2, 10000, 20000, false, some 3, some 30, false, true⟩ 4 rfl rfl rfl

/-- C5: For every configuration with delay_min ≤ delay_max (and the
range representable, as every pair of C++ ints is), every element of
the generated delay sequence lies in the closed range
[delay_min, delay_max]; in particular when delay_min = delay_max every
element equals that common value. -/
theorem delay_sequence_within_bounds (cfg : program_config) (fuel : Nat)
    (hle : cfg.delay_min ≤ cfg.delay_max)
    (hr : cfg.delay_max - cfg.delay_min < 4294967295)
    (l : List Int) (hl : get_delays cfg fuel = some l) :
    (∀ x ∈ l, cfg.delay_min ≤ x ∧ x ≤ cfg.delay_max) ∧
      (cfg.delay_min = cfg.delay_max → ∀ x ∈ l, x = cfg.delay_min) := by
  have hmem := get_delaysOn_mem cfg.delay_min cfg.delay_max hle hr cfg.iterations
    (mtOutputs 30378 fuel) l hl
  refine ⟨hmem, fun heq x hx => ?_⟩
  have h2 := hmem x hx
  omega

set_option maxRecDepth 1000000 in
/-- Witness for C5: with delay_min = delay_max = 7 and 2 iterations
the program generates exactly [7, 7]. -/
theorem delay_sequence_within_bounds_witness :
    (∀ x ∈ ([7, 7] : List Int), (7 : Int) ≤ x ∧ x ≤ 7) ∧
      ((7 : Int) = 7 → ∀ x ∈ ([7, 7] : List Int), x = 7) :=
  delay_sequence_within_bounds ⟨2, 7, 7, true, none, none, false, false⟩ 4
    (by decide) (by decide) [7, 7] (by decide)

end MeasureInputLatency
